import Mathlib

/-!
Verification of the Bomberman simulation and state-reconciliation engine.

Shallow embedding of the JavaScript sources:
- `Bomb.explode`            from the Bomb class (explosion propagation)
- `GameManager.generateGrid`, `seededRandom` seed usage, `getSpawnPoints`
- `GameManager.normalizeGridLayout` / `applyGridLayout`
- `GameManager.rememberExplosion` and the network explosion sync branch
- `GameManager.checkGameEnd` (end-game debounce)
- `Player.kill`, `Player.applyPowerUp` and the kill-credit loop of
  `GameManager.explodeBomb`
- `NetworkManager.joinRoom`, `LobbyManager.startGame`

Grids are lists of rows of integer cell codes
(0 empty, 1 wall, 2 destructible, 3 bomb, 4 powerup).
The seeded pseudo-random draw (fractional part of Math.sin(seed)*10000) is a
fixed real-valued function of the seed; it is modelled as an abstract
function `draw : Nat -> Rat`, which is all the determinism claims need.
-/

namespace Bomberman

/-- Grid of integer cell codes, row major: `grid[y][x]`. -/
abbrev Grid := List (List Int)

/-- Embeds the JS read `grid[y][x]` for coordinates already known to be in
bounds (out-of-bounds reads default to 0 and are never relied upon). -/
def tileAt (grid : Grid) (x y : Int) : Int :=
  ((grid.getD y.toNat []).getD x.toNat 0)

/-- The bounds test of `Bomb.explode`:
`explY < 0 || explY >= grid.length || explX < 0 || explX >= grid[0].length`,
stated positively. -/
def inBoundsP (grid : Grid) (x y : Int) : Prop :=
  0 ≤ y ∧ y < (grid.length : Int) ∧ 0 ≤ x ∧ x < ((grid.headD []).length : Int)

instance (grid : Grid) (x y : Int) : Decidable (inBoundsP grid x y) := by
  unfold inBoundsP; infer_instance

/-- A cell the explosion ray passes through without halting: in bounds and
neither an indestructible wall (1) nor a destructible crate (2). -/
def passThrough (grid : Grid) (x y : Int) : Prop :=
  inBoundsP grid x y ∧ tileAt grid x y ≠ 1 ∧ tileAt grid x y ≠ 2

instance (grid : Grid) (x y : Int) : Decidable (passThrough grid x y) := by
  unfold passThrough; infer_instance

/-- An empty cell: in bounds with cell code 0. -/
def openAt (grid : Grid) (x y : Int) : Prop :=
  inBoundsP grid x y ∧ tileAt grid x y = 0

instance (grid : Grid) (x y : Int) : Decidable (openAt grid x y) := by
  unfold openAt; infer_instance

/-- Embeds the inner loop of `Bomb.explode` for one direction `(dx, dy)`:
steps `i, i+1, ...` up to `range` (the remaining step count is `fuel`);
breaks on out of bounds, breaks before a wall (tile 1), records the cell,
and breaks after a destructible (tile 2). -/
def explodeRay (grid : Grid) (x y dx dy : Int) : Nat → Nat → List (Int × Int)
  | _, 0 => []
  | i, fuel + 1 =>
    if y + dy * (i : Int) < 0 ∨ (grid.length : Int) ≤ y + dy * (i : Int) ∨
        x + dx * (i : Int) < 0 ∨ ((grid.headD []).length : Int) ≤ x + dx * (i : Int) then
      []
    else if tileAt grid (x + dx * (i : Int)) (y + dy * (i : Int)) = 1 then
      []
    else
      (x + dx * (i : Int), y + dy * (i : Int)) ::
        (if tileAt grid (x + dx * (i : Int)) (y + dy * (i : Int)) = 2 then []
         else explodeRay grid x y dx dy (i + 1) fuel)

/-- Embeds `Bomb.explode`: the list of affected cells, the bomb cell first,
then the four cardinal rays in source order (up, down, left, right). -/
def Bomb.explode (grid : Grid) (x y : Int) (range : Nat) : List (Int × Int) :=
  (x, y) ::
    (explodeRay grid x y 0 (-1) 1 range ++ explodeRay grid x y 0 1 1 range ++
      explodeRay grid x y (-1) 0 1 range ++ explodeRay grid x y 1 0 1 range)

/-- The four cardinal directions in the source order of `Bomb.explode`. -/
def explodeDirs : List (Int × Int) := [(0, -1), (0, 1), (-1, 0), (1, 0)]

/-- The cells a ray in direction `(dx, dy)` covers at distances `1..n`. -/
def rayCells (x y dx dy : Int) (n : Nat) : List (Int × Int) :=
  (List.range n).map (fun (t : Nat) => (x + dx * ((t : Int) + 1), y + dy * ((t : Int) + 1)))

/-- The full unobstructed blast: the bomb cell plus `range` cells in each of
the four directions. -/
def fullBlast (x y : Int) (range : Nat) : List (Int × Int) :=
  (x, y) ::
    (rayCells x y 0 (-1) range ++ rayCells x y 0 1 range ++
      rayCells x y (-1) 0 range ++ rayCells x y 1 0 range)

/-- A 9 by 9 grid of empty cells, open surroundings for scenario B. -/
def openGrid9 : Grid := List.replicate 9 (List.replicate 9 (0 : Int))

theorem explodeRay_pass (grid : Grid) (x y dx dy : Int) :
    ∀ (fuel : Nat) (i : Nat),
      (∀ j : Nat, i ≤ j → j < i + fuel → passThrough grid (x + dx * j) (y + dy * j)) →
      explodeRay grid x y dx dy i fuel =
        (List.range fuel).map
          (fun (t : Nat) => (x + dx * ((i : Int) + (t : Int)), y + dy * ((i : Int) + (t : Int)))) := by
  intro fuel
  induction fuel with
  | zero => intro i _; simp [explodeRay]
  | succ n ih =>
    intro i h
    have hi : passThrough grid (x + dx * i) (y + dy * i) :=
      h i le_rfl (by omega)
    obtain ⟨⟨hy0, hyl, hx0, hxl⟩, h1, h2⟩ := hi
    rw [explodeRay]
    rw [if_neg (by push_neg; exact ⟨hy0, hyl, hx0, hxl⟩), if_neg h1, if_neg h2]
    rw [ih (i + 1) (by intro j hj1 hj2; exact h j (by omega) (by omega))]
    rw [List.range_succ_eq_map]
    simp only [List.map_cons, List.map_map]
    refine List.cons_eq_cons.mpr ⟨?_, ?_⟩
    · simp
    · apply List.map_congr_left
      intro t _
      simp only [Function.comp]
      have h1 : ((i + 1 : Nat) : Int) + (t : Int) = (i : Int) + ((t + 1 : Nat) : Int) := by
        push_cast; ring
      rw [h1]

theorem explodeRay_wallHalt (grid : Grid) (x y dx dy : Int) :
    ∀ (fuel : Nat) (i k : Nat), i ≤ k → k < i + fuel →
      (∀ j : Nat, i ≤ j → j < k → passThrough grid (x + dx * j) (y + dy * j)) →
      inBoundsP grid (x + dx * k) (y + dy * k) →
      tileAt grid (x + dx * k) (y + dy * k) = 1 →
      explodeRay grid x y dx dy i fuel =
        (List.range (k - i)).map
          (fun (t : Nat) => (x + dx * ((i : Int) + (t : Int)), y + dy * ((i : Int) + (t : Int)))) := by
  intro fuel
  induction fuel with
  | zero => intro i k h1 h2 _ _ _; omega
  | succ n ih =>
    intro i k hik hkf hpass hb ht
    rcases Nat.eq_or_lt_of_le hik with heq | hlt
    · subst heq
      rw [explodeRay]
      rw [if_neg (by push_neg; exact ⟨hb.1, hb.2.1, hb.2.2.1, hb.2.2.2⟩), if_pos ht]
      simp
    · have hi : passThrough grid (x + dx * i) (y + dy * i) := hpass i le_rfl hlt
      obtain ⟨⟨hy0, hyl, hx0, hxl⟩, h1, h2⟩ := hi
      rw [explodeRay]
      rw [if_neg (by push_neg; exact ⟨hy0, hyl, hx0, hxl⟩), if_neg h1, if_neg h2]
      rw [ih (i + 1) k (by omega) (by omega)
        (by intro j hj1 hj2; exact hpass j (by omega) hj2) hb ht]
      have hk : k - i = (k - (i + 1)) + 1 := by omega
      rw [hk, List.range_succ_eq_map]
      simp only [List.map_cons, List.map_map]
      refine List.cons_eq_cons.mpr ⟨?_, ?_⟩
      · simp
      · apply List.map_congr_left
        intro t _
        simp only [Function.comp]
        have h1 : ((i + 1 : Nat) : Int) + (t : Int) = (i : Int) + ((t + 1 : Nat) : Int) := by
          push_cast; ring
        rw [h1]

theorem explodeRay_destructibleHalt (grid : Grid) (x y dx dy : Int) :
    ∀ (fuel : Nat) (i k : Nat), i ≤ k → k < i + fuel →
      (∀ j : Nat, i ≤ j → j < k → passThrough grid (x + dx * j) (y + dy * j)) →
      inBoundsP grid (x + dx * k) (y + dy * k) →
      tileAt grid (x + dx * k) (y + dy * k) = 2 →
      explodeRay grid x y dx dy i fuel =
        (List.range (k - i + 1)).map
          (fun (t : Nat) => (x + dx * ((i : Int) + (t : Int)), y + dy * ((i : Int) + (t : Int)))) := by
  intro fuel
  induction fuel with
  | zero => intro i k h1 h2 _ _ _; omega
  | succ n ih =>
    intro i k hik hkf hpass hb ht
    rcases Nat.eq_or_lt_of_le hik with heq | hlt
    · subst heq
      rw [explodeRay]
      rw [if_neg (by push_neg; exact ⟨hb.1, hb.2.1, hb.2.2.1, hb.2.2.2⟩),
        if_neg (by rw [ht]; decide), if_pos ht]
      have hii : i - i + 1 = 1 := by omega
      rw [hii, show List.range 1 = [0] from rfl]
      simp
    · have hi : passThrough grid (x + dx * i) (y + dy * i) := hpass i le_rfl hlt
      obtain ⟨⟨hy0, hyl, hx0, hxl⟩, h1, h2⟩ := hi
      rw [explodeRay]
      rw [if_neg (by push_neg; exact ⟨hy0, hyl, hx0, hxl⟩), if_neg h1, if_neg h2]
      rw [ih (i + 1) k (by omega) (by omega)
        (by intro j hj1 hj2; exact hpass j (by omega) hj2) hb ht]
      have hk : k - i + 1 = (k - (i + 1) + 1) + 1 := by omega
      conv_rhs => rw [hk, List.range_succ_eq_map]
      simp only [List.map_cons, List.map_map]
      refine List.cons_eq_cons.mpr ⟨?_, ?_⟩
      · simp
      · apply List.map_congr_left
        intro t _
        simp only [Function.comp]
        have h1 : ((i + 1 : Nat) : Int) + (t : Int) = (i : Int) + ((t + 1 : Nat) : Int) := by
          push_cast; ring
        rw [h1]

theorem rayCells_eq_from_one (x y dx dy : Int) (n : Nat) :
    (List.range n).map
        (fun (t : Nat) => (x + dx * ((1 : Nat) + (t : Int)), y + dy * ((1 : Nat) + (t : Int)))) =
      rayCells x y dx dy n := by
  unfold rayCells
  apply List.map_congr_left
  intro t _
  have h : ((1 : Nat) : Int) + (t : Int) = (t : Int) + 1 := by push_cast; ring
  rw [h]

theorem openAt_passThrough {grid : Grid} {x y : Int} (h : openAt grid x y) :
    passThrough grid x y :=
  ⟨h.1, by rw [h.2]; decide, by rw [h.2]; decide⟩

/-- C1: for every grid and bomb whose four cardinal rays of length `range`
pass only over empty cells, `Bomb.explode` returns exactly `4*range+1`
affected cells, namely the bomb cell plus `range` cells in each direction;
in any direction propagation halts before (excluding) the first
indestructible wall cell and at (including) the first destructible cell;
and a bomb at (5,5) with range 2 and open surroundings yields exactly the
nine cells (5,5),(5,4),(5,3),(5,6),(5,7),(4,5),(3,5),(6,5),(7,5). -/
theorem explode_unobstructed_count_and_halting :
    (∀ (grid : Grid) (x y : Int) (r : Nat),
        (∀ d ∈ explodeDirs, ∀ i : Nat, i ≤ r → 1 ≤ i →
          openAt grid (x + d.1 * i) (y + d.2 * i)) →
        (Bomb.explode grid x y r).length = 4 * r + 1 ∧
          Bomb.explode grid x y r = fullBlast x y r) ∧
    (∀ (grid : Grid) (x y dx dy : Int) (r k : Nat), 1 ≤ k → k ≤ r →
        (∀ j : Nat, 1 ≤ j → j < k → passThrough grid (x + dx * j) (y + dy * j)) →
        inBoundsP grid (x + dx * k) (y + dy * k) →
        tileAt grid (x + dx * k) (y + dy * k) = 1 →
        explodeRay grid x y dx dy 1 r = rayCells x y dx dy (k - 1)) ∧
    (∀ (grid : Grid) (x y dx dy : Int) (r k : Nat), 1 ≤ k → k ≤ r →
        (∀ j : Nat, 1 ≤ j → j < k → passThrough grid (x + dx * j) (y + dy * j)) →
        inBoundsP grid (x + dx * k) (y + dy * k) →
        tileAt grid (x + dx * k) (y + dy * k) = 2 →
        explodeRay grid x y dx dy 1 r = rayCells x y dx dy k) ∧
    Bomb.explode openGrid9 5 5 2 =
      [(5, 5), (5, 4), (5, 3), (5, 6), (5, 7), (4, 5), (3, 5), (6, 5), (7, 5)] := by
  refine ⟨?_, ?_, ?_, ?_⟩
  · intro grid x y r h
    have mk : ∀ dx dy : Int, (dx, dy) ∈ explodeDirs →
        explodeRay grid x y dx dy 1 r = rayCells x y dx dy r := by
      intro dx dy hd
      rw [explodeRay_pass grid x y dx dy r 1
        (by intro j hj1 hj2; exact openAt_passThrough (h (dx, dy) hd j (by omega) (by omega)))]
      exact rayCells_eq_from_one x y dx dy r
    have hB : Bomb.explode grid x y r = fullBlast x y r := by
      unfold Bomb.explode fullBlast
      rw [mk 0 (-1) (by simp [explodeDirs]), mk 0 1 (by simp [explodeDirs]),
        mk (-1) 0 (by simp [explodeDirs]), mk 1 0 (by simp [explodeDirs])]
    refine ⟨?_, hB⟩
    rw [hB]
    simp [fullBlast, rayCells]
    omega
  · intro grid x y dx dy r k hk1 hkr hpass hb ht
    rw [explodeRay_wallHalt grid x y dx dy r 1 k hk1 (by omega) hpass hb ht]
    exact rayCells_eq_from_one x y dx dy (k - 1)
  · intro grid x y dx dy r k hk1 hkr hpass hb ht
    rw [explodeRay_destructibleHalt grid x y dx dy r 1 k hk1 (by omega) hpass hb ht]
    have hk : k - 1 + 1 = k := by omega
    rw [hk]
    exact rayCells_eq_from_one x y dx dy k
  · decide

/-- Witness for C1: scenario B, bomb at (5,5), range 2, open grid. -/
theorem explode_unobstructed_count_and_halting_witness :
    (Bomb.explode openGrid9 5 5 2).length = 4 * 2 + 1 ∧
      Bomb.explode openGrid9 5 5 2 = fullBlast 5 5 2 :=
  explode_unobstructed_count_and_halting.1 openGrid9 5 5 2 (by decide)

/-- Embeds the Player class state (the fields the verified rules touch). -/
structure Player where
  id : String
  username : String
  gridX : Int
  gridY : Int
  alive : Bool
  kills : Nat
  deaths : Nat
  speed : ℚ
  maxBombs : Nat
  currentBombs : Nat
  bombRange : Nat
  canKickBombs : Bool
  invincible : Bool
  invincibleUntil : Nat
deriving DecidableEq, Repr

/-- The Player constructor defaults: alive, 0 kills and deaths, speed 2,
1 bomb, range 2, no kick, not invincible. -/
def Player.mk0 (id username : String) (x y : Int) : Player :=
  { id := id, username := username, gridX := x, gridY := y, alive := true,
    kills := 0, deaths := 0, speed := 2, maxBombs := 1, currentBombs := 0,
    bombRange := 2, canKickBombs := false, invincible := false, invincibleUntil := 0 }

/-- Embeds `Player.isAtPosition`. -/
def Player.isAtPosition (p : Player) (gx gy : Int) : Bool :=
  p.gridX == gx && p.gridY == gy

/-- Embeds `Player.kill`: mutates (alive false, deaths + 1) and returns true
only for a live, non-invincible player; otherwise leaves the player
untouched and returns false. -/
def Player.kill (p : Player) : Player × Bool :=
  if p.invincible = false ∧ p.alive = true then
    ({ p with alive := false, deaths := p.deaths + 1 }, true)
  else
    (p, false)

/-- Embeds `Player.applyPowerUp`; `now` stands for `Date.now()`. -/
def Player.applyPowerUp (p : Player) (now : Nat) (type : String) : Player :=
  if type = "speed" then { p with speed := min 4 (p.speed + 1/2) }
  else if type = "bomb" then { p with maxBombs := min 8 (p.maxBombs + 1) }
  else if type = "range" then { p with bombRange := min 10 (p.bombRange + 1) }
  else if type = "kick" then { p with canKickBombs := true }
  else if type = "invincible" then
    { p with invincible := true, invincibleUntil := now + 5000 }
  else p

theorem applyPowerUp_step_caps (p : Player) (now : Nat) (t : String)
    (h1 : p.speed ≤ 4) (h2 : p.maxBombs ≤ 8) (h3 : p.bombRange ≤ 10) :
    (p.applyPowerUp now t).speed ≤ 4 ∧ (p.applyPowerUp now t).maxBombs ≤ 8 ∧
      (p.applyPowerUp now t).bombRange ≤ 10 := by
  unfold Player.applyPowerUp
  split_ifs <;> simp_all [min_le_left]

/-- C10: power-up effects are capped: starting from any player within the
caps (in particular the constructor defaults), any sequence of
`applyPowerUp` calls keeps speed at most 4, maxBombs at most 8 and
bombRange at most 10; at the cap, a further application of the same type
leaves the player unchanged; below the cap a speed power-up adds
exactly 0.5. -/
theorem applyPowerUp_capped :
    (∀ (p : Player) (apps : List (Nat × String)),
        p.speed ≤ 4 → p.maxBombs ≤ 8 → p.bombRange ≤ 10 →
        (apps.foldl (fun q a => q.applyPowerUp a.1 a.2) p).speed ≤ 4 ∧
          (apps.foldl (fun q a => q.applyPowerUp a.1 a.2) p).maxBombs ≤ 8 ∧
          (apps.foldl (fun q a => q.applyPowerUp a.1 a.2) p).bombRange ≤ 10) ∧
    (∀ (p : Player) (now : Nat), p.speed = 4 → p.applyPowerUp now "speed" = p) ∧
    (∀ (p : Player) (now : Nat), p.maxBombs = 8 → p.applyPowerUp now "bomb" = p) ∧
    (∀ (p : Player) (now : Nat), p.bombRange = 10 → p.applyPowerUp now "range" = p) ∧
    (∀ (p : Player) (now : Nat), p.speed + 1/2 ≤ 4 →
        (p.applyPowerUp now "speed").speed = p.speed + 1/2) := by
  refine ⟨?_, ?_, ?_, ?_, ?_⟩
  · intro p apps
    induction apps generalizing p with
    | nil => intro h1 h2 h3; exact ⟨h1, h2, h3⟩
    | cons a rest ih =>
      intro h1 h2 h3
      have step := applyPowerUp_step_caps p a.1 a.2 h1 h2 h3
      exact ih (p.applyPowerUp a.1 a.2) step.1 step.2.1 step.2.2
  · intro p now h
    unfold Player.applyPowerUp
    rw [if_pos rfl, h]
    have hm : min (4 : ℚ) (4 + 1/2) = 4 := by norm_num
    rw [hm, ← h]
  · intro p now h
    unfold Player.applyPowerUp
    rw [if_neg (by decide), if_pos rfl, h]
    have hm : min 8 (8 + 1) = 8 := by norm_num
    rw [hm, ← h]
  · intro p now h
    unfold Player.applyPowerUp
    rw [if_neg (by decide), if_neg (by decide), if_pos rfl, h]
    have hm : min 10 (10 + 1) = 10 := by norm_num
    rw [hm, ← h]
  · intro p now h
    unfold Player.applyPowerUp
    rw [if_pos rfl]
    simpa using min_eq_right h

/-- Witness for C10: the default player with one power-up of each type. -/
theorem applyPowerUp_capped_witness :
    ([((0 : Nat), "speed"), (0, "bomb"), (0, "range"), (0, "kick"), (0, "invincible")].foldl
        (fun q a => q.applyPowerUp a.1 a.2) (Player.mk0 "p1" "ann" 1 1)).speed ≤ 4 ∧
      ([((0 : Nat), "speed"), (0, "bomb"), (0, "range"), (0, "kick"), (0, "invincible")].foldl
        (fun q a => q.applyPowerUp a.1 a.2) (Player.mk0 "p1" "ann" 1 1)).maxBombs ≤ 8 ∧
      ([((0 : Nat), "speed"), (0, "bomb"), (0, "range"), (0, "kick"), (0, "invincible")].foldl
        (fun q a => q.applyPowerUp a.1 a.2) (Player.mk0 "p1" "ann" 1 1)).bombRange ≤ 10 :=
  applyPowerUp_capped.1 (Player.mk0 "p1" "ann" 1 1)
    [((0 : Nat), "speed"), (0, "bomb"), (0, "range"), (0, "kick"), (0, "invincible")]
    (by norm_num [Player.mk0]) (by norm_num [Player.mk0]) (by norm_num [Player.mk0])

/-- Embeds `GameManager.rememberExplosion` acting on the pair
(processedExplosionIds as an insertion-ordered list, processedExplosionOrder):
skips falsy or already-known ids, otherwise appends to both and, past
capacity 64, shifts the oldest id out of both. -/
def rememberExplosion (st : List String × List String) (explosionId : String) :
    List String × List String :=
  if explosionId = "" then st
  else if explosionId ∈ st.1 then st
  else
    if 64 < (st.2 ++ [explosionId]).length then
      if (st.2 ++ [explosionId]).headD "" ≠ "" then
        ((st.1 ++ [explosionId]).erase ((st.2 ++ [explosionId]).headD ""),
          (st.2 ++ [explosionId]).tail)
      else (st.1 ++ [explosionId], (st.2 ++ [explosionId]).tail)
    else (st.1 ++ [explosionId], st.2 ++ [explosionId])

/-- The game-manager state touched by the explosion branch of
`GameManager.syncGameState`. -/
structure SyncState where
  processedExplosionIds : List String
  processedExplosionOrder : List String
  grid : Grid
  explosions : List (Int × Int)
  localPlayer : Option Player
deriving Repr

/-- Embeds the grid write `this.grid[y][x] = v` (coordinates valid). -/
def setCellI (g : Grid) (x y : Int) (v : Int) : Grid :=
  if 0 ≤ y ∧ y.toNat < g.length then
    g.set y.toNat ((g.getD y.toNat []).set x.toNat v)
  else g

/-- Embeds the body of the per-cell loop of the network-explosion branch of
`syncGameState`: push a visual explosion, convert a destructible cell to
empty, and kill the local player standing on the cell. -/
def applyExplosionCell (s : SyncState) (c : Int × Int) : SyncState :=
  let s1 : SyncState := { s with explosions := s.explosions ++ [c] }
  let s2 : SyncState :=
    if 0 ≤ c.2 ∧ c.2 < (s1.grid.length : Int) ∧ 0 ≤ c.1 ∧ tileAt s1.grid c.1 c.2 = 2 then
      { s1 with grid := setCellI s1.grid c.1 c.2 0 }
    else s1
  match s2.localPlayer with
  | some lp => if lp.isAtPosition c.1 c.2 then { s2 with localPlayer := some lp.kill.1 } else s2
  | none => s2

/-- Embeds one iteration of the explosions branch of
`GameManager.syncGameState`: the effective id is `explosionData.id` when
present, else the snapshot key; a falsy or already-processed id is skipped
entirely, otherwise the id is remembered and every affected cell applied. -/
def applyNetworkExplosion (st : SyncState) (key dataId : String)
    (cells : List (Int × Int)) : SyncState :=
  if (if dataId ≠ "" then dataId else key) = "" ∨
      (if dataId ≠ "" then dataId else key) ∈ st.processedExplosionIds then st
  else
    cells.foldl applyExplosionCell
      { st with
        processedExplosionIds :=
          (rememberExplosion (st.processedExplosionIds, st.processedExplosionOrder)
            (if dataId ≠ "" then dataId else key)).1,
        processedExplosionOrder :=
          (rememberExplosion (st.processedExplosionIds, st.processedExplosionOrder)
            (if dataId ≠ "" then dataId else key)).2 }

theorem applyExplosionCell_processedIds (s : SyncState) (c : Int × Int) :
    (applyExplosionCell s c).processedExplosionIds = s.processedExplosionIds := by
  unfold applyExplosionCell
  dsimp only
  by_cases hc : 0 ≤ c.2 ∧ c.2 < (s.grid.length : Int) ∧ 0 ≤ c.1 ∧ tileAt s.grid c.1 c.2 = 2
  · rw [if_pos hc]
    cases hlp : s.localPlayer with
    | none => simp [hlp]
    | some lp => by_cases hat : lp.isAtPosition c.1 c.2 <;> simp [hlp, hat]
  · rw [if_neg hc]
    cases hlp : s.localPlayer with
    | none => simp [hlp]
    | some lp => by_cases hat : lp.isAtPosition c.1 c.2 <;> simp [hlp, hat]

theorem foldl_applyExplosionCell_processedIds :
    ∀ (cells : List (Int × Int)) (s : SyncState),
      (cells.foldl applyExplosionCell s).processedExplosionIds = s.processedExplosionIds := by
  intro cells
  induction cells with
  | nil => intro s; rfl
  | cons c rest ih =>
    intro s
    rw [List.foldl_cons, ih, applyExplosionCell_processedIds]

theorem applyNetworkExplosion_skip (st : SyncState) (key dataId : String)
    (cells : List (Int × Int))
    (h : (if dataId ≠ "" then dataId else key) ∈ st.processedExplosionIds) :
    applyNetworkExplosion st key dataId cells = st := by
  unfold applyNetworkExplosion
  rw [if_pos (Or.inr h)]

theorem rememberExplosion_mem (ids : List String) (eid : String)
    (hne : eid ≠ "") (hmem : eid ∉ ids) :
    eid ∈ (rememberExplosion (ids, ids) eid).1 := by
  unfold rememberExplosion
  rw [if_neg hne, if_neg hmem]
  by_cases hlen : 64 < (ids ++ [eid]).length
  · rw [if_pos hlen]
    obtain ⟨a, t, rfl⟩ : ∃ a t, ids = a :: t := by
      cases ids with
      | nil => simp at hlen
      | cons a t => exact ⟨a, t, rfl⟩
    simp only [List.cons_append, List.headD_cons]
    by_cases ha : a ≠ ""
    · rw [if_pos ha, List.erase_cons_head]
      simp
    · rw [if_neg ha]
      simp
  · rw [if_neg hlen]
    simp

/-- C4: explosion application is idempotent by id: an inbound explosion
event whose effective id is already in the processed-id set leaves the
whole state (players, grid, scores, visual explosions) unchanged, and
applying the same event twice equals applying it once (for states whose
id set and FIFO order list agree, as the code maintains). -/
theorem syncGameState_explosion_idempotent :
    (∀ (st : SyncState) (key dataId : String) (cells : List (Int × Int)),
        (if dataId ≠ "" then dataId else key) ∈ st.processedExplosionIds →
        applyNetworkExplosion st key dataId cells = st) ∧
    (∀ (st : SyncState) (key dataId : String) (cells : List (Int × Int)),
        st.processedExplosionIds = st.processedExplosionOrder →
        applyNetworkExplosion (applyNetworkExplosion st key dataId cells) key dataId cells =
          applyNetworkExplosion st key dataId cells) := by
  constructor
  · intro st key dataId cells h
    exact applyNetworkExplosion_skip st key dataId cells h
  · intro st key dataId cells hco
    by_cases he : (if dataId ≠ "" then dataId else key) = ""
    · have h1 : applyNetworkExplosion st key dataId cells = st := by
        unfold applyNetworkExplosion
        rw [if_pos (Or.inl he)]
      rw [h1, h1]
    · by_cases hmem : (if dataId ≠ "" then dataId else key) ∈ st.processedExplosionIds
      · rw [applyNetworkExplosion_skip st key dataId cells hmem]
        exact applyNetworkExplosion_skip st key dataId cells hmem
      · have hresult : (applyNetworkExplosion st key dataId cells).processedExplosionIds =
            (rememberExplosion (st.processedExplosionIds, st.processedExplosionOrder)
              (if dataId ≠ "" then dataId else key)).1 := by
          unfold applyNetworkExplosion
          rw [if_neg (by push_neg; exact ⟨he, hmem⟩)]
          rw [foldl_applyExplosionCell_processedIds]
        have hmem2 : (if dataId ≠ "" then dataId else key) ∈
            (applyNetworkExplosion st key dataId cells).processedExplosionIds := by
          rw [hresult, ← hco]
          exact rememberExplosion_mem st.processedExplosionIds _ he hmem
        exact applyNetworkExplosion_skip _ key dataId cells hmem2

/-- A state with explosion id e1 already processed, used as the C4 witness. -/
def seenState : SyncState :=
  { processedExplosionIds := ["e1"], processedExplosionOrder := ["e1"],
    grid := [[2, 0], [0, 0]], explosions := [], localPlayer := none }

/-- Witness for C4: re-applying the already-seen id e1 changes nothing. -/
theorem syncGameState_explosion_idempotent_witness :
    applyNetworkExplosion seenState "k0" "e1" [(0, 0), (1, 0)] = seenState :=
  syncGameState_explosion_idempotent.1 seenState "k0" "e1" [(0, 0), (1, 0)] (by decide)

theorem rememberExplosion_fresh_foldl :
    ∀ (xs pre : List String), (pre ++ xs).Nodup → (∀ i ∈ xs, i ≠ "") →
      (pre ++ xs).length ≤ 64 →
      xs.foldl rememberExplosion (pre, pre) = (pre ++ xs, pre ++ xs) := by
  intro xs
  induction xs with
  | nil => intro pre _ _ _; simp
  | cons x rest ih =>
    intro pre hnd hne hlen
    rw [List.foldl_cons]
    have hx : x ≠ "" := hne x (by simp)
    have hdisj := (List.nodup_append.mp hnd).2.2
    have hxpre : x ∉ pre := by
      intro hmem
      exact hdisj hmem (by simp)
    have hlen1 : pre.length + 1 ≤ 64 := by
      simp only [List.length_append, List.length_cons] at hlen
      omega
    have hstep : rememberExplosion (pre, pre) x = (pre ++ [x], pre ++ [x]) := by
      unfold rememberExplosion
      rw [if_neg hx, if_neg hxpre,
        if_neg (by simp only [List.length_append, List.length_cons, List.length_nil]; omega)]
    rw [hstep]
    have hnd2 : ((pre ++ [x]) ++ rest).Nodup := by
      rw [List.append_assoc]
      simpa using hnd
    have hlen2 : ((pre ++ [x]) ++ rest).length ≤ 64 := by
      simp only [List.length_append, List.length_cons] at hlen ⊢
      simp at hlen ⊢
      omega
    have h2 := ih (pre ++ [x]) hnd2 (fun i hi => hne i (by simp [hi])) hlen2
    rw [h2]
    simp

/-- C5: the processed-explosion-id set has fixed capacity 64 with FIFO
eviction: after 65 distinct (non-empty) ids are passed to
`rememberExplosion` starting from the empty state, the first id is no
longer in the set, and a renewed `rememberExplosion` of that id stores it
again (it is processed anew rather than suppressed). -/
theorem rememberExplosion_fifo_eviction :
    ∀ ids : List String, ids.length = 65 → ids.Nodup → (∀ i ∈ ids, i ≠ "") →
      ids.headD "" ∉ (ids.foldl rememberExplosion ([], [])).1 ∧
      ids.headD "" ∈
        (rememberExplosion (ids.foldl rememberExplosion ([], [])) (ids.headD "")).1 := by
  intro ids hlen hnd hne
  obtain ⟨x, rest, rfl⟩ : ∃ x rest, ids = x :: rest := by
    cases ids with
    | nil => simp at hlen
    | cons a t => exact ⟨a, t, rfl⟩
  have hrest : rest ≠ [] := by intro h; subst h; simp at hlen
  obtain ⟨t, last, rfl⟩ : ∃ t last, rest = t ++ [last] := by
    refine ⟨rest.dropLast, rest.getLast hrest, ?_⟩
    exact (List.dropLast_append_getLast hrest).symm
  have hlt : t.length = 63 := by
    simp only [List.length_cons, List.length_append, List.length_nil] at hlen
    omega
  obtain ⟨u, t2, rfl⟩ : ∃ u t2, t = u :: t2 := by
    cases t with
    | nil => simp at hlt
    | cons a t2 => exact ⟨a, t2, rfl⟩
  have hlt2 : t2.length = 62 := by simpa using hlt
  have hx : x ≠ "" := hne x (by simp)
  have hu : u ≠ "" := hne u (by simp)
  have hlast : last ≠ "" := hne last (by simp)
  have hxnotin : x ∉ (u :: t2) ++ [last] := (List.nodup_cons.mp hnd).1
  have hndtail : ((u :: t2) ++ [last]).Nodup := (List.nodup_cons.mp hnd).2
  have hlastnotin : last ∉ x :: u :: t2 := by
    intro hmem
    have hnd2 : ((x :: u :: t2) ++ [last]).Nodup := by simpa using hnd
    exact (List.nodup_append.mp hnd2).2.2 hmem (by simp)
  have hfront : (x :: u :: t2).foldl rememberExplosion ([], []) =
      (x :: u :: t2, x :: u :: t2) := by
    have := rememberExplosion_fresh_foldl (x :: u :: t2) [] ?_ ?_ ?_
    · simpa using this
    · simp only [List.nil_append]
      have hnd2 : ((x :: u :: t2) ++ [last]).Nodup := by simpa using hnd
      exact (List.nodup_append.mp hnd2).1
    · intro i hi
      exact hne i (by simp at hi; rcases hi with h | h | h <;> simp [h])
    · simp only [List.nil_append, List.length_cons]
      omega
  have hstep : rememberExplosion (x :: u :: t2, x :: u :: t2) last =
      ((u :: t2) ++ [last], (u :: t2) ++ [last]) := by
    unfold rememberExplosion
    rw [if_neg hlast, if_neg hlastnotin,
      if_pos (by simp only [List.length_append, List.length_cons, List.length_nil]; omega),
      if_pos (by simp [hx])]
    simp [List.erase_cons_head]
  have hfold : (x :: (u :: t2) ++ [last]).foldl rememberExplosion ([], []) =
      ((u :: t2) ++ [last], (u :: t2) ++ [last]) := by
    rw [show (x :: (u :: t2) ++ [last]) = (x :: u :: t2) ++ [last] by simp,
      List.foldl_append, hfront]
    simpa using hstep
  constructor
  · rw [show (x :: ((u :: t2) ++ [last])).headD "" = x from rfl]
    rw [show (x :: ((u :: t2) ++ [last])) = (x :: (u :: t2) ++ [last]) by simp, hfold]
    exact hxnotin
  · rw [show (x :: ((u :: t2) ++ [last])).headD "" = x from rfl]
    rw [show (x :: ((u :: t2) ++ [last])) = (x :: (u :: t2) ++ [last]) by simp, hfold]
    unfold rememberExplosion
    rw [if_neg hx, if_neg (by exact hxnotin),
      if_pos (by simp only [List.length_append, List.length_cons, List.length_nil]; omega)]
    rw [if_pos (by simp [hu])]
    have hxu : x ≠ u := by
      intro h
      exact hxnotin (by simp [h])
    rw [show ((u :: t2 ++ [last]) ++ [x]).headD "" = u from rfl]
    rw [(List.mem_erase_of_ne hxu)]
    simp

/-- Witness for C5: the 65 ids i0..i64. -/
def evictIds : List String := (List.range 65).map (fun n => "i" ++ toString n)

/-- Witness for C5 at the concrete id sequence i0..i64. -/
theorem rememberExplosion_fifo_eviction_witness :
    evictIds.headD "" ∉ (evictIds.foldl rememberExplosion ([], [])).1 ∧
      evictIds.headD "" ∈
        (rememberExplosion (evictIds.foldl rememberExplosion ([], [])) (evictIds.headD "")).1 :=
  rememberExplosion_fifo_eviction evictIds (by decide) (by decide) (by decide)

/-- In-place mutation of the player stored under `pid` in the players map
(association list in insertion order). -/
def updatePlayer (ps : List (String × Player)) (pid : String) (f : Player → Player) :
    List (String × Player) :=
  ps.map (fun e => cond (e.1 == pid) (e.1, f e.2) e)

/-- One iteration of the kill loop of `GameManager.explodeBomb` for the
player under key `pid`: if the player stands on the explosion cell and
`kill()` succeeds, the player is updated, and when the death is not a
suicide the bomb owner (if present) gains one kill. -/
def killSweepStep (ownerId : String) (ex ey : Int)
    (ps : List (String × Player)) (pid : String) : List (String × Player) :=
  match ps.lookup pid with
  | none => ps
  | some p =>
    if p.isAtPosition ex ey then
      if (p.kill).2 then
        if (p.kill).1.id ≠ ownerId then
          updatePlayer (updatePlayer ps pid (fun _ => (p.kill).1)) ownerId
            (fun k => { k with kills := k.kills + 1 })
        else updatePlayer ps pid (fun _ => (p.kill).1)
      else ps
    else ps

/-- The kill loop of `GameManager.explodeBomb` over one explosion cell:
iterates over the keys present at loop start, reading live values. -/
def killPlayersAtCell (ps : List (String × Player)) (ownerId : String)
    (ex ey : Int) : List (String × Player) :=
  (ps.map Prod.fst).foldl (killSweepStep ownerId ex ey) ps

theorem lookup_updatePlayer_self :
    ∀ (ps : List (String × Player)) (pid : String) (f : Player → Player),
      (updatePlayer ps pid f).lookup pid = (ps.lookup pid).map f := by
  intro ps pid f
  induction ps with
  | nil => rfl
  | cons e rest ih =>
    obtain ⟨k, b⟩ := e
    cases hk : k == pid with
    | true =>
      have hkp : (pid == k) = true := by
        have : k = pid := by simpa using hk
        simp [this]
      simp only [updatePlayer, List.map_cons, hk, cond_true]
      simp only [List.lookup_cons, hkp]
      rfl
    | false =>
      have hpk : (pid == k) = false := by
        have : ¬k = pid := by simpa using hk
        simp [Ne.symm this]
      simp only [updatePlayer, List.map_cons, hk, cond_false]
      simp only [List.lookup_cons, hpk]
      simpa [updatePlayer] using ih

theorem lookup_updatePlayer_ne :
    ∀ (ps : List (String × Player)) (pid : String) (f : Player → Player) (q : String),
      q ≠ pid → (updatePlayer ps pid f).lookup q = ps.lookup q := by
  intro ps pid f q hq
  induction ps with
  | nil => rfl
  | cons e rest ih =>
    obtain ⟨k, b⟩ := e
    cases hk : k == pid with
    | true =>
      have hkp : k = pid := by simpa using hk
      have hqk : (q == k) = false := by simp [hkp, hq]
      simp only [updatePlayer, List.map_cons, hk, cond_true]
      simp only [List.lookup_cons, hqk]
      simpa [updatePlayer] using ih
    | false =>
      simp only [updatePlayer, List.map_cons, hk, cond_false]
      simp only [List.lookup_cons]
      cases hqk : (q == k) with
      | true => rfl
      | false => simpa [updatePlayer] using ih

theorem mem_of_lookup_eq_some :
    ∀ (ps : List (String × Player)) (k : String) (p : Player),
      ps.lookup k = some p → (k, p) ∈ ps := by
  intro ps k p
  induction ps with
  | nil => intro h; simp [List.lookup] at h
  | cons e rest ih =>
    obtain ⟨a, b⟩ := e
    intro h
    rw [List.lookup] at h
    cases hk : (k == a) with
    | true =>
      rw [hk] at h
      simp only [Option.some.injEq] at h
      have hka : k = a := by simpa using hk
      rw [hka, ← h]
      exact List.mem_cons_self _ _
    | false =>
      rw [hk] at h
      exact List.mem_cons_of_mem _ (ih h)

theorem lookup_split :
    ∀ (ps : List (String × Player)) (k : String) (v : Player),
      ps.lookup k = some v →
      ∃ l1 l2, ps = l1 ++ (k, v) :: l2 ∧ k ∉ l1.map Prod.fst := by
  intro ps k v
  induction ps with
  | nil => intro h; simp [List.lookup] at h
  | cons e rest ih =>
    obtain ⟨a, b⟩ := e
    intro h
    rw [List.lookup] at h
    cases hk : (k == a) with
    | true =>
      rw [hk] at h
      simp only [Option.some.injEq] at h
      have hka : k = a := by simpa using hk
      exact ⟨[], rest, by simp [← hka, ← h], by simp⟩
    | false =>
      rw [hk] at h
      obtain ⟨l1, l2, heq, hnot⟩ := ih h
      refine ⟨(a, b) :: l1, l2, by simp [heq], ?_⟩
      simp only [List.map_cons, List.mem_cons]
      push_neg
      exact ⟨by simpa using hk, hnot⟩

theorem killSweep_foldl_skip (ownerId : String) (ex ey : Int) :
    ∀ (ks : List String) (ps : List (String × Player)),
      (∀ pid ∈ ks, ∀ p, ps.lookup pid = some p → p.isAtPosition ex ey = false) →
      ks.foldl (killSweepStep ownerId ex ey) ps = ps := by
  intro ks
  induction ks with
  | nil => intro ps _; rfl
  | cons k rest ih =>
    intro ps h
    rw [List.foldl_cons]
    have hstep : killSweepStep ownerId ex ey ps k = ps := by
      unfold killSweepStep
      cases hlk : ps.lookup k with
      | none => rfl
      | some p =>
        have hfalse := h k (by simp) p hlk
        dsimp only
        rw [if_neg (by simp [hfalse])]
    rw [hstep]
    exact ih ps (fun pid hpid p hlk => h pid (by simp [hpid]) p hlk)

/-- C6: kill accounting in `explodeBomb`. For the (unique) victim standing
on an explosion cell: if alive and not invincible, the victim ends with
alive = false and deaths incremented by exactly one; the bomb owner, when
present and distinct from the victim, gains exactly one kill; a suicide
gives no kill credit; every other player is untouched; and a dead or
invincible victim leaves the whole players map unchanged (kill
short-circuits returning false). -/
theorem explodeBomb_kill_accounting :
    ∀ (ps : List (String × Player)) (ownerId victimId : String) (ex ey : Int) (v : Player),
      (ps.map Prod.fst).Nodup →
      ps.lookup victimId = some v →
      v.id = victimId →
      (∀ e ∈ ps, e.1 ≠ victimId → e.2.isAtPosition ex ey = false) →
      v.isAtPosition ex ey = true →
      ((v.alive = true ∧ v.invincible = false →
        (killPlayersAtCell ps ownerId ex ey).lookup victimId =
            some { v with alive := false, deaths := v.deaths + 1 } ∧
          (victimId ≠ ownerId → ∀ k, ps.lookup ownerId = some k →
            (killPlayersAtCell ps ownerId ex ey).lookup ownerId =
              some { k with kills := k.kills + 1 }) ∧
          (victimId = ownerId →
            (killPlayersAtCell ps ownerId ex ey).lookup ownerId =
              some { v with alive := false, deaths := v.deaths + 1 }) ∧
          (∀ q : String, q ≠ victimId → q ≠ ownerId →
            (killPlayersAtCell ps ownerId ex ey).lookup q = ps.lookup q)) ∧
        (v.alive = false ∨ v.invincible = true →
          killPlayersAtCell ps ownerId ex ey = ps)) := by
  intro ps ownerId victimId ex ey v hnodup hlookup hid hothers hat
  obtain ⟨l1, l2, hps, hl1⟩ := lookup_split ps victimId v hlookup
  have hkeys : ps.map Prod.fst = l1.map Prod.fst ++ victimId :: l2.map Prod.fst := by
    rw [hps]; simp
  have hl2 : victimId ∉ l2.map Prod.fst := by
    have hnd := hnodup
    rw [hkeys] at hnd
    exact (List.nodup_cons.mp (List.nodup_append.mp hnd).2.1).1
  have hskip1 : (l1.map Prod.fst).foldl (killSweepStep ownerId ex ey) ps = ps := by
    apply killSweep_foldl_skip
    intro pid hpid p hlk
    have hne : pid ≠ victimId := by
      intro h; rw [h] at hpid; exact hl1 hpid
    exact hothers (pid, p) (mem_of_lookup_eq_some ps pid p hlk) hne
  constructor
  · intro hlive
    have hkill : v.kill = ({ v with alive := false, deaths := v.deaths + 1 }, true) := by
      unfold Player.kill
      rw [if_pos ⟨hlive.2, hlive.1⟩]
    by_cases hsui : victimId = ownerId
    · have hstep : killSweepStep ownerId ex ey ps victimId =
          updatePlayer ps victimId
            (fun _ => { v with alive := false, deaths := v.deaths + 1 }) := by
        unfold killSweepStep
        rw [hlookup]
        dsimp only
        rw [if_pos hat, hkill]
        dsimp only
        rw [if_pos rfl]
        rw [if_neg (by simp only [ne_eq, not_not]; exact hid.trans hsui)]
      have hskip2 : (l2.map Prod.fst).foldl (killSweepStep ownerId ex ey)
          (updatePlayer ps victimId
            (fun _ => { v with alive := false, deaths := v.deaths + 1 })) =
          updatePlayer ps victimId
            (fun _ => { v with alive := false, deaths := v.deaths + 1 }) := by
        apply killSweep_foldl_skip
        intro pid hpid p hlk
        have hne : pid ≠ victimId := by
          intro h; rw [h] at hpid; exact hl2 hpid
        rw [lookup_updatePlayer_ne ps victimId _ pid hne] at hlk
        exact hothers (pid, p) (mem_of_lookup_eq_some ps pid p hlk) hne
      have hres : killPlayersAtCell ps ownerId ex ey =
          updatePlayer ps victimId
            (fun _ => { v with alive := false, deaths := v.deaths + 1 }) := by
        rw [killPlayersAtCell, hkeys, List.foldl_append, hskip1, List.foldl_cons, hstep,
          hskip2]
      refine ⟨?_, ?_, ?_, ?_⟩
      · rw [hres, lookup_updatePlayer_self, hlookup]; rfl
      · intro hne; exact absurd hsui hne
      · intro _; rw [hres, ← hsui, lookup_updatePlayer_self, hlookup]; rfl
      · intro q hqv _; rw [hres, lookup_updatePlayer_ne ps victimId _ q hqv]
    · have hov : ownerId ≠ victimId := fun h => hsui h.symm
      have hstep : killSweepStep ownerId ex ey ps victimId =
          updatePlayer
            (updatePlayer ps victimId
              (fun _ => { v with alive := false, deaths := v.deaths + 1 })) ownerId
            (fun k => { k with kills := k.kills + 1 }) := by
        unfold killSweepStep
        rw [hlookup]
        dsimp only
        rw [if_pos hat, hkill]
        dsimp only
        rw [if_pos rfl]
        rw [if_pos (by simp only [ne_eq]; rw [hid]; exact hsui)]
      have hskip2 : (l2.map Prod.fst).foldl (killSweepStep ownerId ex ey)
          (updatePlayer
            (updatePlayer ps victimId
              (fun _ => { v with alive := false, deaths := v.deaths + 1 })) ownerId
            (fun k => { k with kills := k.kills + 1 })) =
          updatePlayer
            (updatePlayer ps victimId
              (fun _ => { v with alive := false, deaths := v.deaths + 1 })) ownerId
            (fun k => { k with kills := k.kills + 1 }) := by
        apply killSweep_foldl_skip
        intro pid hpid p hlk
        have hne : pid ≠ victimId := by
          intro h; rw [h] at hpid; exact hl2 hpid
        by_cases hpo : pid = ownerId
        · subst hpo
          rw [lookup_updatePlayer_self,
            lookup_updatePlayer_ne ps victimId _ pid (by exact hne)] at hlk
          cases hpk : ps.lookup pid with
          | none => rw [hpk] at hlk; simp at hlk
          | some k0 =>
            rw [hpk] at hlk
            simp only [Option.map_some', Option.some.injEq] at hlk
            have hpos : p.isAtPosition ex ey = k0.isAtPosition ex ey := by
              rw [← hlk]; rfl
            rw [hpos]
            exact hothers (pid, k0) (mem_of_lookup_eq_some ps pid k0 hpk) hne
        · rw [lookup_updatePlayer_ne _ ownerId _ pid hpo,
            lookup_updatePlayer_ne ps victimId _ pid hne] at hlk
          exact hothers (pid, p) (mem_of_lookup_eq_some ps pid p hlk) hne
      have hres : killPlayersAtCell ps ownerId ex ey =
          updatePlayer
            (updatePlayer ps victimId
              (fun _ => { v with alive := false, deaths := v.deaths + 1 })) ownerId
            (fun k => { k with kills := k.kills + 1 }) := by
        rw [killPlayersAtCell, hkeys, List.foldl_append, hskip1, List.foldl_cons, hstep,
          hskip2]
      refine ⟨?_, ?_, ?_, ?_⟩
      · rw [hres, lookup_updatePlayer_ne _ ownerId _ victimId (Ne.symm hov),
          lookup_updatePlayer_self, hlookup]
        rfl
      · intro _ k hk
        rw [hres, lookup_updatePlayer_self,
          lookup_updatePlayer_ne ps victimId _ ownerId hov, hk]
        rfl
      · intro h; exact absurd h hsui
      · intro q hqv hqo
        rw [hres, lookup_updatePlayer_ne _ ownerId _ q hqo,
          lookup_updatePlayer_ne ps victimId _ q hqv]
  · intro hdead
    have hkill : v.kill = (v, false) := by
      unfold Player.kill
      rw [if_neg (by rcases hdead with h | h <;> simp [h])]
    have hstep : killSweepStep ownerId ex ey ps victimId = ps := by
      unfold killSweepStep
      rw [hlookup]
      dsimp only
      rw [if_pos hat, hkill]
      dsimp only
      rw [if_neg Bool.false_ne_true]
    rw [killPlayersAtCell, hkeys, List.foldl_append, hskip1, List.foldl_cons, hstep]
    apply killSweep_foldl_skip
    intro pid hpid p hlk
    have hne : pid ≠ victimId := by
      intro h; rw [h] at hpid; exact hl2 hpid
    exact hothers (pid, p) (mem_of_lookup_eq_some ps pid p hlk) hne

/-- Witness for C6: owner o, victim a standing on the cell (2,3). -/
theorem explodeBomb_kill_accounting_witness :
    (killPlayersAtCell [("o", Player.mk0 "o" "bob" 0 0), ("a", Player.mk0 "a" "ann" 2 3)]
        "o" 2 3).lookup "a" =
      some { (Player.mk0 "a" "ann" 2 3) with alive := false, deaths := (Player.mk0 "a" "ann" 2 3).deaths + 1 } :=
  ((explodeBomb_kill_accounting
      [("o", Player.mk0 "o" "bob" 0 0), ("a", Player.mk0 "a" "ann" 2 3)] "o" "a" 2 3
      (Player.mk0 "a" "ann" 2 3) (by decide) (by decide) rfl (by decide) (by decide)).1
    ⟨rfl, rfl⟩).1

/-- Room settings; `maxPlayers = 0` models an absent (falsy) setting, which
the join check replaces by 10 (`settings.maxPlayers || 10`). -/
structure RoomSettings where
  maxPlayers : Nat
deriving Repr, DecidableEq

/-- A lobby player slot as written by `joinRoom`. -/
structure RoomPlayer where
  id : String
  username : String
  ready : Bool
  colorIndex : Nat
  disconnected : Bool
deriving Repr, DecidableEq

/-- The room data `joinRoom` and `startGame` read. -/
structure RoomData where
  code : String
  host : String
  status : String
  settings : RoomSettings
  players : List (String × RoomPlayer)
deriving Repr, DecidableEq

/-- The color-index loop of `joinRoom`: first index below 4 not in use,
defaulting to 0. -/
def findColorIndex (used : List Nat) : Nat :=
  if 0 ∉ used then 0
  else if 1 ∉ used then 1
  else if 2 ∉ used then 2
  else if 3 ∉ used then 3
  else 0

/-- Embeds `NetworkManager.joinRoom` as a pure function from the room
snapshot to either a thrown user-facing reason (`Except.error`, raised
before any write) or the room with the player slot appended. Error
messages are ASCII transcriptions of the thrown strings. -/
def joinRoom (room : Option RoomData) (userId username : String) : Except String RoomData :=
  match room with
  | none => Except.error "Room not found"
  | some roomData =>
    if roomData.status ≠ "waiting" then Except.error "Game already in progress"
    else if roomData.players.length ≥
        (if roomData.settings.maxPlayers = 0 then 10 else roomData.settings.maxPlayers) then
      Except.error "Room is full"
    else if roomData.players.length ≥ 10 then Except.error "Maximum 10 players allowed"
    else
      Except.ok
        { roomData with
            players := roomData.players ++
              [(userId,
                { id := userId, username := username, ready := false,
                  colorIndex :=
                    findColorIndex (roomData.players.map (fun p => p.2.colorIndex)),
                  disconnected := false })] }

/-- Embeds `LobbyManager.startGame` up to the network call: the host check,
the minimum-player check and the all-ready check, each rejecting with a
user-facing reason before any state change. -/
def startGame (room : RoomData) (userId : String) : Except String Unit :=
  if room.host ≠ userId then Except.error "Only the host can start the game"
  else if room.players.length < 2 then Except.error "At least 2 players are required"
  else if ¬(room.players.all (fun p => p.2.ready)) then
    Except.error "All players must be ready"
  else Except.ok ()

/-- `maxPlayers` clamped to the documented range [2,10]. -/
def clampMaxPlayers (m : Nat) : Nat := min (max m 2) 10

/-- C7: capacity enforcement. A join on a room whose player count has
reached the configured maximum (clamped to [2,10]) is rejected
synchronously with a user-facing reason and, the rejection being raised
before any write, with no mutation of room state; and a start on a room
with fewer than 2 players is rejected. -/
theorem capacity_enforcement :
    (∀ (room : RoomData) (userId username : String),
        1 ≤ room.settings.maxPlayers →
        clampMaxPlayers room.settings.maxPlayers ≤ room.players.length →
        ∃ msg, joinRoom (some room) userId username = Except.error msg) ∧
    (∀ (room : RoomData) (userId : String),
        room.players.length < 2 →
        ∃ msg, startGame room userId = Except.error msg) := by
  constructor
  · intro room userId username hm hcap
    unfold joinRoom
    dsimp only
    by_cases hst : room.status ≠ "waiting"
    · rw [if_pos hst]
      exact ⟨_, rfl⟩
    · rw [if_neg hst]
      unfold clampMaxPlayers at hcap
      have hm0 : room.settings.maxPlayers ≠ 0 := by omega
      rw [if_neg hm0]
      by_cases hfull :
          room.players.length ≥ room.settings.maxPlayers
      · rw [if_pos hfull]
        exact ⟨_, rfl⟩
      · rw [if_neg hfull, if_pos (by omega)]
        exact ⟨_, rfl⟩
  · intro room userId hcount
    unfold startGame
    by_cases hh : room.host ≠ userId
    · rw [if_pos hh]
      exact ⟨_, rfl⟩
    · rw [if_neg hh, if_pos hcount]
      exact ⟨_, rfl⟩

/-- A full waiting room (maxPlayers 2, both slots taken), for the C7 witness. -/
def fullRoom : RoomData :=
  { code := "R1", host := "h", status := "waiting", settings := { maxPlayers := 2 },
    players :=
      [("h", { id := "h", username := "hank", ready := true, colorIndex := 0,
               disconnected := false }),
       ("g", { id := "g", username := "gene", ready := true, colorIndex := 1,
               disconnected := false })] }

/-- A waiting room with a single player, for the C7 witness. -/
def soloRoom : RoomData :=
  { code := "R2", host := "h", status := "waiting", settings := { maxPlayers := 4 },
    players :=
      [("h", { id := "h", username := "hank", ready := true, colorIndex := 0,
               disconnected := false })] }

/-- Witness for C7: a join on a full room and a start with one player. -/
theorem capacity_enforcement_witness :
    (∃ msg, joinRoom (some fullRoom) "u3" "carol" = Except.error msg) ∧
      (∃ msg, startGame soloRoom "h" = Except.error msg) :=
  ⟨capacity_enforcement.1 fullRoom "u3" "carol" (by decide) (by decide),
    capacity_enforcement.2 soloRoom "h" (by decide)⟩

/-- A network grid row value: a JS array (entries possibly null), a keyed
object with numeric keys, or anything else (null or a primitive). -/
inductive GridRowVal where
  | arr : List (Option Int) → GridRowVal
  | keyed : List (Nat × Int) → GridRowVal
  | other : GridRowVal
deriving Repr, DecidableEq

/-- A network grid layout: an array of rows or a keyed object of rows. -/
inductive GridLayoutVal where
  | arr : List GridRowVal → GridLayoutVal
  | keyed : List (Nat × GridRowVal) → GridLayoutVal
deriving Repr, DecidableEq

/-- Stable insertion of one keyed entry into a key-sorted list. -/
def insertByKey {α : Type} (p : Nat × α) : List (Nat × α) → List (Nat × α)
  | [] => [p]
  | q :: rest => if p.1 ≤ q.1 then p :: q :: rest else q :: insertByKey p rest

/-- The numeric key sort `Object.keys(x).sort((a,b) => Number(a)-Number(b))`
of `normalizeGridLayout` (object keys are unique, so ties cannot occur). -/
def sortByKey {α : Type} : List (Nat × α) → List (Nat × α)
  | [] => []
  | p :: rest => insertByKey p (sortByKey rest)

/-- One row of `GameManager.normalizeGridLayout`: arrays are mapped through
`Number(value ?? 0)` (null becomes 0), keyed objects are read in ascending
numeric key order, anything else becomes the empty row. -/
def normalizeRow : GridRowVal → List Int
  | GridRowVal.arr cells => cells.map (fun v => v.getD 0)
  | GridRowVal.keyed kvs => (sortByKey kvs).map Prod.snd
  | GridRowVal.other => []

/-- Embeds `GameManager.normalizeGridLayout`: missing layouts give null;
rows of a keyed layout are read in ascending key order; the result stands
only if every normalized row is non-empty. -/
def normalizeGridLayout (layout : Option GridLayoutVal) : Option (List (List Int)) :=
  match layout with
  | none => none
  | some l =>
    match (match l with
      | GridLayoutVal.arr rs => rs
      | GridLayoutVal.keyed kvs => (sortByKey kvs).map Prod.snd).map normalizeRow with
    | normalized =>
      if normalized.all (fun row => decide (0 < row.length)) then some normalized else none

/-- The game-manager fields `generateGrid` and `applyGridLayout` touch. -/
structure GMState where
  roomCode : String
  grid : Grid
  gridWidth : Nat
  gridHeight : Nat
deriving Repr, DecidableEq

/-- Embeds `GameManager.applyGridLayout`: normalization failure or an empty
row list returns false and leaves the state alone; otherwise the grid and
its dimensions are adopted (width taken from the first row). -/
def applyGridLayout (s : GMState) (layout : Option GridLayoutVal) : Bool × GMState :=
  match normalizeGridLayout layout with
  | none => (false, s)
  | some normalized =>
    if normalized.length = 0 then (false, s)
    else
      (true,
        { s with gridHeight := normalized.length,
                 gridWidth := (normalized.headD []).length,
                 grid := normalized })

/-- An empty game-manager state. -/
def gm0 : GMState := { roomCode := "", grid := [], gridWidth := 0, gridHeight := 0 }

/-- A layout whose rows normalize to different lengths. -/
def raggedLayout : Option GridLayoutVal :=
  some (GridLayoutVal.arr [GridRowVal.arr [some 1, some 2], GridRowVal.arr [some 3]])

/-- C9 counterexample: `applyGridLayout` adopts this layout (returns true)
although the adopted grid is not a complete rectangular array - its second
row is shorter than the adopted gridWidth. Rectangularity is not checked. -/
theorem applyGridLayout_accepts_ragged :
    (applyGridLayout gm0 raggedLayout).1 = true ∧
      ¬(∀ row ∈ (applyGridLayout gm0 raggedLayout).2.grid,
          row.length = (applyGridLayout gm0 raggedLayout).2.gridWidth) := by
  constructor
  · decide
  · decide

/-- C9 (amended): `applyGridLayout` normalizes keyed and sparse rows to
numeric arrays and adopts exactly the normalized rows; it rejects, leaving
the state unchanged, precisely when the layout is missing or empty or some
row normalizes to an empty array; every adopted row is non-empty, but row
lengths are not required to agree (no rectangularity check). -/
theorem applyGridLayout_normalization :
    (∀ (s : GMState) (layout : Option GridLayoutVal),
        (applyGridLayout s layout).1 = false → (applyGridLayout s layout).2 = s) ∧
    (∀ (s : GMState) (layout : Option GridLayoutVal),
        (applyGridLayout s layout).1 = true ↔
          ∃ rows, normalizeGridLayout layout = some rows ∧ rows ≠ []) ∧
    (∀ (s : GMState) (layout : Option GridLayoutVal) (rows : List (List Int)),
        normalizeGridLayout layout = some rows → rows ≠ [] →
        (applyGridLayout s layout).2.grid = rows) ∧
    (∀ (layout : Option GridLayoutVal) (rows : List (List Int)),
        normalizeGridLayout layout = some rows → ∀ row ∈ rows, 0 < row.length) := by
  refine ⟨?_, ?_, ?_, ?_⟩
  · intro s layout
    unfold applyGridLayout
    cases hn : normalizeGridLayout layout with
    | none => intro _; rfl
    | some rows =>
      dsimp only
      by_cases hz : rows.length = 0
      · rw [if_pos hz]
        intro _; rfl
      · rw [if_neg hz]
        intro h; exact absurd h (by simp)
  · intro s layout
    unfold applyGridLayout
    cases hn : normalizeGridLayout layout with
    | none =>
      dsimp only
      constructor
      · intro h; exact absurd h (by simp)
      · rintro ⟨rows, hr, _⟩; exact absurd hr (by simp)
    | some rows =>
      dsimp only
      by_cases hz : rows.length = 0
      · rw [if_pos hz]
        constructor
        · intro h; exact absurd h (by simp)
        · rintro ⟨rows2, hr2, hne⟩
          have hrr : rows2 = rows := (Option.some.inj hr2).symm
          exact (hne (by rw [hrr]; exact List.length_eq_zero.mp hz)).elim
      · rw [if_neg hz]
        constructor
        · intro _
          exact ⟨rows, rfl, fun h => hz (by rw [h]; rfl)⟩
        · intro _; rfl
  · intro s layout rows hn hne
    unfold applyGridLayout
    rw [hn]
    dsimp only
    rw [if_neg (fun h => hne (List.length_eq_zero.mp h))]
  · intro layout rows hn row hrow
    unfold normalizeGridLayout at hn
    cases layout with
    | none => simp at hn
    | some l =>
      dsimp only at hn
      by_cases hall :
          ((match l with
            | GridLayoutVal.arr rs => rs
            | GridLayoutVal.keyed kvs => (sortByKey kvs).map Prod.snd).map
              normalizeRow).all (fun row => decide (0 < row.length)) = true
      · rw [if_pos hall] at hn
        simp only [Option.some.injEq] at hn
        rw [hn] at hall
        have := List.all_eq_true.mp hall row hrow
        simpa using this
      · rw [if_neg (by simpa using hall)] at hn
        simp at hn

/-- A keyed, out-of-order layout that normalizes to [[5],[7]]. -/
def keyedLayout : Option GridLayoutVal :=
  some (GridLayoutVal.keyed
    [(1, GridRowVal.keyed [(0, 7)]), (0, GridRowVal.arr [some 5])])

/-- Witness for C9 (amended): the keyed layout is normalized in ascending
key order and adopted as the grid. -/
theorem applyGridLayout_normalization_witness :
    (applyGridLayout gm0 keyedLayout).2.grid = [[5], [7]] :=
  applyGridLayout_normalization.2.2.1 gm0 keyedLayout [[5], [7]] (by decide) (by decide)

/-- The fixed size table of `generateGrid` (default medium). -/
def mapSizeFor (mapType : String) : Nat × Nat :=
  if mapType = "small" then (13, 11)
  else if mapType = "medium" then (15, 13)
  else if mapType = "large" then (19, 15)
  else if mapType = "xlarge" then (23, 17)
  else if mapType = "huge" then (27, 21)
  else (15, 13)

/-- Read `grid[y][x]` with Nat coordinates (generator loops stay in range). -/
def getCell (g : Grid) (x y : Nat) : Int := (g.getD y []).getD x 0

/-- Write `grid[y][x] = v` with Nat coordinates. -/
def setCell (g : Grid) (x y : Nat) (v : Int) : Grid :=
  g.set y ((g.getD y []).set x v)

/-- The grid after the perimeter-wall and pillar-wall loops of
`generateGrid`, written pointwise: border cells and interior cells with
both coordinates even (the loops run from 2 in steps of 2 while below
size minus 2) hold walls. -/
def baseGrid (w h : Nat) : Grid :=
  (List.range h).map (fun y => (List.range w).map (fun x =>
    if x = 0 ∨ x = w - 1 ∨ y = 0 ∨ y = h - 1 then (1 : Int)
    else if 2 ≤ x ∧ x < w - 2 ∧ 2 ≤ y ∧ y < h - 2 ∧ x % 2 = 0 ∧ y % 2 = 0 then 1
    else 0))

/-- Embeds `getSpawnPoints` from the grid dimensions (corners, edge
midpoints, two quarter-point positions; Math.floor is Nat division). -/
def spawnPoints (w h : Nat) : List (Nat × Nat) :=
  [(1, 1), (w - 2, 1), (1, h - 2), (w - 2, h - 2),
    (w / 2, 1), (w / 2, h - 2), (1, h / 2), (w - 2, h / 2),
    (w / 4, h / 4), (3 * w / 4, 3 * h / 4)]

/-- The safe-zone test of the crate loop: within Chebyshev distance 1 of
some spawn point. -/
def inSafeZone (spawns : List (Nat × Nat)) (x y : Nat) : Prop :=
  ∃ s ∈ spawns, ((x : Int) - s.1).natAbs ≤ 1 ∧ ((y : Int) - s.2).natAbs ≤ 1

instance (spawns : List (Nat × Nat)) (x y : Nat) : Decidable (inSafeZone spawns x y) := by
  unfold inSafeZone; infer_instance

/-- The seed start: sum of the character codes of the room code. -/
def sumCharCodes (s : String) : Nat := (s.data.map Char.toNat).sum

/-- The interior cells the crate loop scans, row major (y outer from 1 to
height minus 2, x inner from 1 to width minus 2). -/
def crateScanCells (w h : Nat) : List (Nat × Nat) :=
  (List.range (h - 2)).flatMap (fun j => (List.range (w - 2)).map (fun i => (1 + i, 1 + j)))

/-- One iteration of the crate loop of `generateGrid`: a non-empty cell is
skipped before the seed advances; otherwise the seed advances and a crate
is placed when the cell is outside every safe zone and the seeded draw is
below the 0.7 crate chance. -/
def crateStep (draw : Nat → ℚ) (spawns : List (Nat × Nat))
    (st : Nat × Grid) (c : Nat × Nat) : Nat × Grid :=
  if getCell st.2 c.1 c.2 ≠ 0 then st
  else if ¬inSafeZone spawns c.1 c.2 ∧ draw (st.1 + 1) < 7 / 10 then
    (st.1 + 1, setCell st.2 c.1 c.2 2)
  else (st.1 + 1, st.2)

/-- Embeds `GameManager.generateGrid`: pick the dimensions from the size
table, build the walls, seed from the room-code character sum, and run the
seeded crate loop. `draw` abstracts `seededRandom` (the fractional part of
Math.sin(seed)*10000), a fixed function of the seed. -/
def generateGrid (draw : Nat → ℚ) (s : GMState) (mapType : String) : GMState :=
  { s with
      gridWidth := (mapSizeFor mapType).1,
      gridHeight := (mapSizeFor mapType).2,
      grid :=
        ((crateScanCells (mapSizeFor mapType).1 (mapSizeFor mapType).2).foldl
          (crateStep draw (spawnPoints (mapSizeFor mapType).1 (mapSizeFor mapType).2))
          (sumCharCodes s.roomCode,
            baseGrid (mapSizeFor mapType).1 (mapSizeFor mapType).2)).2 }

theorem getCell_setCell_cases (g : Grid) (x y a b : Nat) (v : Int) :
    getCell (setCell g x y v) a b = getCell g a b ∨
      (a = x ∧ b = y ∧ getCell (setCell g x y v) a b = v) := by
  unfold getCell setCell
  rcases eq_or_ne b y with hb | hb
  · subst hb
    by_cases hyl : b < g.length
    · have hrow : (g.set b ((g.getD b []).set x v)).getD b [] = (g.getD b []).set x v := by
        rw [List.getD_eq_getElem?_getD _ b [], List.getElem?_set]
        simp [hyl]
      rw [hrow]
      rcases eq_or_ne a x with ha | ha
      · subst ha
        by_cases hxl : a < (g.getD b []).length
        · right
          refine ⟨rfl, rfl, ?_⟩
          rw [List.getD_eq_getElem?_getD _ a 0, List.getElem?_set]
          simp only [List.getD_eq_getElem?_getD] at hxl
          simp [hxl]
        · left
          rw [List.set_eq_of_length_le (by omega)]
      · left
        rw [List.getD_eq_getElem?_getD _ a 0, List.getElem?_set_ne (Ne.symm ha),
          ← List.getD_eq_getElem?_getD]
    · left
      rw [List.set_eq_of_length_le (by omega)]
  · left
    rw [show (g.set y ((g.getD y []).set x v)).getD b [] = g.getD b [] from by
      rw [List.getD_eq_getElem?_getD _ b [], List.getElem?_set_ne (Ne.symm hb),
        ← List.getD_eq_getElem?_getD]]

theorem crateFold_cases (draw : Nat → ℚ) (spawns : List (Nat × Nat)) :
    ∀ (cells : List (Nat × Nat)) (st : Nat × Grid) (a b : Nat),
      getCell (cells.foldl (crateStep draw spawns) st).2 a b = getCell st.2 a b ∨
        (getCell st.2 a b = 0 ∧
          getCell (cells.foldl (crateStep draw spawns) st).2 a b = 2 ∧
          ¬inSafeZone spawns a b) := by
  intro cells
  induction cells with
  | nil => intro st a b; left; rfl
  | cons c rest ih =>
    intro st a b
    rw [List.foldl_cons]
    have hstep : getCell (crateStep draw spawns st c).2 a b = getCell st.2 a b ∨
        (getCell st.2 a b = 0 ∧ getCell (crateStep draw spawns st c).2 a b = 2 ∧
          ¬inSafeZone spawns a b) := by
      unfold crateStep
      split_ifs with h1 h2
      · left; rfl
      · rcases getCell_setCell_cases st.2 c.1 c.2 a b 2 with hcase | ⟨hax, hby, hval⟩
        · left; exact hcase
        · right
          push_neg at h1
          refine ⟨by rw [hax, hby]; exact h1, hval, ?_⟩
          rw [hax, hby]
          exact h2.1
      · left; rfl
    rcases ih (crateStep draw spawns st c) a b with hrest | ⟨h0, h2v, hsafe⟩
    · rw [hrest]; exact hstep
    · rcases hstep with hs | ⟨hs0, hs2, _⟩
      · right
        exact ⟨by rw [← hs]; exact h0, h2v, hsafe⟩
      · rw [hs2] at h0
        exact absurd h0 (by norm_num)

theorem getCell_baseGrid (w h x y : Nat) (hx : x < w) (hy : y < h) :
    getCell (baseGrid w h) x y =
      if x = 0 ∨ x = w - 1 ∨ y = 0 ∨ y = h - 1 then 1
      else if 2 ≤ x ∧ x < w - 2 ∧ 2 ≤ y ∧ y < h - 2 ∧ x % 2 = 0 ∧ y % 2 = 0 then 1
      else 0 := by
  unfold getCell baseGrid
  rw [List.getD_eq_getElem?_getD _ y [], List.getElem?_map, List.getElem?_range hy]
  simp only [Option.map_some', Option.getD_some]
  rw [List.getD_eq_getElem?_getD _ x 0, List.getElem?_map, List.getElem?_range hx]
  simp only [Option.map_some', Option.getD_some]

theorem getCell_baseGrid_ne_two (w h a b : Nat) : getCell (baseGrid w h) a b ≠ 2 := by
  by_cases hb : b < h
  · by_cases ha : a < w
    · rw [getCell_baseGrid w h a b ha hb]
      split_ifs <;> decide
    · unfold getCell baseGrid
      rw [List.getD_eq_getElem?_getD _ b [], List.getElem?_map, List.getElem?_range hb]
      simp only [Option.map_some', Option.getD_some]
      rw [List.getD_eq_getElem?_getD _ a 0, List.getElem?_map]
      rw [show (List.range w)[a]? = none from by
        rw [List.getElem?_eq_none_iff]; simpa using ha]
      simp
  · unfold getCell baseGrid
    rw [List.getD_eq_getElem?_getD _ b [], List.getElem?_map]
    rw [show (List.range h)[b]? = none from by
      rw [List.getElem?_eq_none_iff]; simpa using hb]
    simp [List.getD]

theorem crateStep_foldl_congr :
    ∀ (cells : List (Nat × Nat)) (d1 d2 : Nat → ℚ) (spawns : List (Nat × Nat))
      (seed : Nat) (g : Grid),
      (∀ n, seed < n → d1 n = d2 n) →
      cells.foldl (crateStep d1 spawns) (seed, g) =
        cells.foldl (crateStep d2 spawns) (seed, g) := by
  intro cells
  induction cells with
  | nil => intro d1 d2 spawns seed g _; rfl
  | cons c rest ih =>
    intro d1 d2 spawns seed g hd
    rw [List.foldl_cons, List.foldl_cons]
    have hstep : crateStep d1 spawns (seed, g) c = crateStep d2 spawns (seed, g) c := by
      unfold crateStep
      rw [hd (seed + 1) (by omega)]
    rw [hstep]
    have hseed : (crateStep d2 spawns (seed, g) c).1 = seed ∨
        (crateStep d2 spawns (seed, g) c).1 = seed + 1 := by
      unfold crateStep
      split_ifs <;> simp
    have hmono : ∀ n, (crateStep d2 spawns (seed, g) c).1 < n → d1 n = d2 n := by
      intro n hn
      rcases hseed with h | h <;> (rw [h] at hn; exact hd n (by omega))
    exact ih d1 d2 spawns (crateStep d2 spawns (seed, g) c).1
      (crateStep d2 spawns (seed, g) c).2 hmono

/-- C2: map generation is deterministic. With the seeded draw a fixed
function of the seed (seededRandom has no other randomness source), the
generated grid depends only on the room code and the map size: two
invocations from states agreeing on the room code are bit-identical, and
the output depends on the draw function only through seeds strictly above
the sum of the room-code character codes. -/
theorem generateGrid_deterministic :
    (∀ (draw : Nat → ℚ) (mapType : String) (s1 s2 : GMState),
        s1.roomCode = s2.roomCode →
        (generateGrid draw s1 mapType).grid = (generateGrid draw s2 mapType).grid ∧
          (generateGrid draw s1 mapType).gridWidth = (generateGrid draw s2 mapType).gridWidth ∧
          (generateGrid draw s1 mapType).gridHeight =
            (generateGrid draw s2 mapType).gridHeight) ∧
    (∀ (d1 d2 : Nat → ℚ) (s : GMState) (mapType : String),
        (∀ n, sumCharCodes s.roomCode < n → d1 n = d2 n) →
        (generateGrid d1 s mapType).grid = (generateGrid d2 s mapType).grid) := by
  constructor
  · intro draw mapType s1 s2 h
    unfold generateGrid
    dsimp only
    rw [h]
    exact ⟨rfl, rfl, rfl⟩
  · intro d1 d2 s mapType hd
    unfold generateGrid
    dsimp only
    rw [crateStep_foldl_congr _ d1 d2 _ _ _ hd]

/-- A fresh manager state for room ABCDEF. -/
def stA : GMState := { roomCode := "ABCDEF", grid := [], gridWidth := 0, gridHeight := 0 }

/-- A manager state for room ABCDEF with unrelated leftover fields. -/
def stB : GMState := { roomCode := "ABCDEF", grid := [[9]], gridWidth := 99, gridHeight := 7 }

/-- Witness for C2: two states for room ABCDEF give identical medium maps. -/
theorem generateGrid_deterministic_witness :
    (generateGrid (fun _ => 0) stA "medium").grid =
        (generateGrid (fun _ => 0) stB "medium").grid ∧
      (generateGrid (fun _ => 0) stA "medium").gridWidth =
        (generateGrid (fun _ => 0) stB "medium").gridWidth ∧
      (generateGrid (fun _ => 0) stA "medium").gridHeight =
        (generateGrid (fun _ => 0) stB "medium").gridHeight :=
  generateGrid_deterministic.1 (fun _ => 0) "medium" stA stB rfl

/-- C3: structure of every medium (15 by 13) generated map: indestructible
walls on the whole border, an indestructible wall at every interior cell
with both coordinates even, and no destructible cell within Chebyshev
distance 1 of any of the 4 corner spawn points. -/
theorem generateGrid_medium_structure :
    ∀ (draw : Nat → ℚ) (s : GMState) (x y : Nat),
      (x < 15 → y < 13 → (x = 0 ∨ x = 14 ∨ y = 0 ∨ y = 12) →
        getCell (generateGrid draw s "medium").grid x y = 1) ∧
      (1 ≤ x → x ≤ 13 → 1 ≤ y → y ≤ 11 → x % 2 = 0 → y % 2 = 0 →
        getCell (generateGrid draw s "medium").grid x y = 1) ∧
      (∀ c ∈ [((1 : Nat), (1 : Nat)), (13, 1), (1, 11), (13, 11)],
        ((x : Int) - c.1).natAbs ≤ 1 → ((y : Int) - c.2).natAbs ≤ 1 →
        getCell (generateGrid draw s "medium").grid x y ≠ 2) := by
  intro draw s x y
  have hms : mapSizeFor "medium" = (15, 13) := by decide
  have hgrid : (generateGrid draw s "medium").grid =
      ((crateScanCells 15 13).foldl (crateStep draw (spawnPoints 15 13))
        (sumCharCodes s.roomCode, baseGrid 15 13)).2 := by
    unfold generateGrid
    dsimp only
    rw [hms]
  have hfold := crateFold_cases draw (spawnPoints 15 13) (crateScanCells 15 13)
    (sumCharCodes s.roomCode, baseGrid 15 13) x y
  refine ⟨?_, ?_, ?_⟩
  · intro hx hy hborder
    have hbase : getCell (baseGrid 15 13) x y = 1 := by
      rw [getCell_baseGrid 15 13 x y hx hy, if_pos (by omega)]
    rw [hgrid]
    rcases hfold with h | ⟨h0, _, _⟩
    · rw [h]; exact hbase
    · rw [hbase] at h0; exact absurd h0 (by norm_num)
  · intro hx1 hx13 hy1 hy11 hxe hye
    have hbase : getCell (baseGrid 15 13) x y = 1 := by
      rw [getCell_baseGrid 15 13 x y (by omega) (by omega),
        if_neg (by omega), if_pos (by omega)]
    rw [hgrid]
    rcases hfold with h | ⟨h0, _, _⟩
    · rw [h]; exact hbase
    · rw [hbase] at h0; exact absurd h0 (by norm_num)
  · intro c hc hcx hcy
    rw [hgrid]
    rcases hfold with h | ⟨_, _, hsafe⟩
    · rw [h]; exact getCell_baseGrid_ne_two 15 13 x y
    · exfalso
      apply hsafe
      refine ⟨c, ?_, hcx, hcy⟩
      simp only [List.mem_cons, List.not_mem_nil, or_false] at hc
      rcases hc with rfl | rfl | rfl | rfl <;> simp [spawnPoints]

/-- Witness for C3: the top-left border cell of the map for room ABCDEF. -/
theorem generateGrid_medium_structure_witness :
    getCell (generateGrid (fun _ => 0) stA "medium").grid 0 0 = 1 :=
  (generateGrid_medium_structure (fun _ => 0) stA 0 0).1 (by decide) (by decide)
    (Or.inl rfl)

/-- The game-manager fields `checkGameEnd` touches: `gameEndScheduled`
models a non-null `gameEndCheckTimer` (the pending `endGame` call). -/
structure EndCheckState where
  gameRunning : Bool
  lastAliveCount : Nat
  stableAliveCountDuration : ℚ
  gameEndScheduled : Bool
deriving Repr, DecidableEq

/-- Embeds `GameManager.checkGameEnd` for one tick with the given alive and
total player counts: early-out when the game is not running or no players
are loaded; a changed alive count resets the stability clock and cancels a
pending end; a stable count accrues one frame (1/60 s); the end is
scheduled when at most one player is alive out of at least two, stable for
at least 1.5 s. -/
def checkGameEnd (st : EndCheckState) (aliveCount totalPlayers : Nat) : EndCheckState :=
  if st.gameRunning = false then st
  else if totalPlayers = 0 then st
  else
    let st1 :=
      if aliveCount ≠ st.lastAliveCount then
        { st with lastAliveCount := aliveCount, stableAliveCountDuration := 0,
                  gameEndScheduled := false }
      else { st with stableAliveCountDuration := st.stableAliveCountDuration + 1 / 60 }
    if aliveCount ≤ 1 ∧ 2 ≤ totalPlayers ∧ (3 / 2 : ℚ) ≤ st1.stableAliveCountDuration ∧
        st1.gameEndScheduled = false then
      { st1 with gameEndScheduled := true }
    else st1

/-- Run `checkGameEnd` over a tick sequence of (alive, total) counts. -/
def runEnd (st : EndCheckState) (ticks : List (Nat × Nat)) : EndCheckState :=
  ticks.foldl (fun s t => checkGameEnd s t.1 t.2) st

/-- The constructor state: game running, counters zero, no pending end. -/
def initEndState : EndCheckState :=
  { gameRunning := true, lastAliveCount := 0, stableAliveCountDuration := 0,
    gameEndScheduled := false }

/-- Length of the longest suffix of the tick history whose alive counts
are all at most 1. -/
def suffQual (hist : List (Nat × Nat)) : Nat :=
  (hist.reverse.takeWhile (fun t => decide (t.1 ≤ 1))).length

/-- Invariant tying a `checkGameEnd` state to its tick history: a scheduled
end exhibits 90 consecutive qualifying ticks, and while the last count
qualifies the stability clock counts at most the qualifying suffix. -/
def EndInv (st : EndCheckState) (hist : List (Nat × Nat)) : Prop :=
  (st.gameEndScheduled = true →
    ∃ l1 w l2, hist = l1 ++ w ++ l2 ∧ 90 ≤ w.length ∧ ∀ t ∈ w, t.1 ≤ 1) ∧
  (st.gameRunning = true → st.lastAliveCount ≤ 1 →
    ∃ m : Nat, st.stableAliveCountDuration = (m : ℚ) / 60 ∧ m ≤ suffQual hist)

theorem suffQual_append_qual (hist : List (Nat × Nat)) (t : Nat × Nat) (h : t.1 ≤ 1) :
    suffQual (hist ++ [t]) = suffQual hist + 1 := by
  unfold suffQual
  rw [List.reverse_append]
  simp [List.takeWhile, h]

theorem suffQual_window (hist : List (Nat × Nat)) :
    ∃ l1 w, hist = l1 ++ w ∧ w.length = suffQual hist ∧ ∀ t ∈ w, t.1 ≤ 1 := by
  refine ⟨(hist.reverse.dropWhile (fun t => decide (t.1 ≤ 1))).reverse,
    (hist.reverse.takeWhile (fun t => decide (t.1 ≤ 1))).reverse, ?_, by simp [suffQual], ?_⟩
  · have h := List.takeWhile_append_dropWhile (fun t => decide (t.1 ≤ 1)) hist.reverse
    calc hist = hist.reverse.reverse := (List.reverse_reverse hist).symm
      _ = (List.takeWhile (fun t => decide (t.1 ≤ 1)) hist.reverse ++
            List.dropWhile (fun t => decide (t.1 ≤ 1)) hist.reverse).reverse := by rw [h]
      _ = _ := by rw [List.reverse_append]
  · intro t ht
    rw [List.mem_reverse] at ht
    simpa using List.mem_takeWhile_imp ht

theorem window_extend {hist : List (Nat × Nat)} {t : Nat × Nat}
    (h : ∃ l1 w l2, hist = l1 ++ w ++ l2 ∧ 90 ≤ w.length ∧ ∀ u ∈ w, u.1 ≤ 1) :
    ∃ l1 w l2, hist ++ [t] = l1 ++ w ++ l2 ∧ 90 ≤ w.length ∧ ∀ u ∈ w, u.1 ≤ 1 := by
  obtain ⟨l1, w, l2, heq, hlen, hq⟩ := h
  exact ⟨l1, w, l2 ++ [t], by rw [heq]; simp, hlen, hq⟩

theorem endInv_step (st : EndCheckState) (hist : List (Nat × Nat)) (a tot : Nat)
    (hat : a ≤ tot) (hinv : EndInv st hist) :
    EndInv (checkGameEnd st a tot) (hist ++ [(a, tot)]) := by
  obtain ⟨hsched, hdur⟩ := hinv
  unfold checkGameEnd
  by_cases hrun : st.gameRunning = false
  · rw [if_pos hrun]
    refine ⟨fun h => window_extend (hsched h), fun hr => absurd hrun (by rw [hr]; simp)⟩
  · rw [if_neg hrun]
    have hrun2 : st.gameRunning = true := by
      cases h : st.gameRunning
      · exact absurd h hrun
      · rfl
    by_cases htot : tot = 0
    · rw [if_pos htot]
      have hq : ((a, tot) : Nat × Nat).1 ≤ 1 := by simp; omega
      refine ⟨fun h => window_extend (hsched h), fun hr hl => ?_⟩
      obtain ⟨m, hm, hms⟩ := hdur hr hl
      exact ⟨m, hm, by rw [suffQual_append_qual hist (a, tot) hq]; omega⟩
    · rw [if_neg htot]
      dsimp only
      by_cases hchange : a ≠ st.lastAliveCount
      · rw [if_pos hchange]
        rw [if_neg (by
          rintro ⟨-, -, hd, -⟩
          norm_num at hd)]
        constructor
        · intro h; exact absurd h (by simp)
        · intro _ hl
          refine ⟨0, by norm_num, by omega⟩
      · rw [if_neg hchange]
        push_neg at hchange
        by_cases hcond : a ≤ 1 ∧ 2 ≤ tot ∧
            (3 / 2 : ℚ) ≤ st.stableAliveCountDuration + 1 / 60 ∧
            st.gameEndScheduled = false
        · rw [if_pos hcond]
          obtain ⟨ha1, htot2, hd, hns⟩ := hcond
          have hl : st.lastAliveCount ≤ 1 := by omega
          obtain ⟨m, hm, hms⟩ := hdur hrun2 hl
          have h90 : 90 ≤ m + 1 := by
            rw [hm] at hd
            have : (3 / 2 : ℚ) ≤ ((m : ℚ) + 1) / 60 := by
              rw [div_add_div_same] at hd
              convert hd using 2
            rw [le_div_iff₀ (by norm_num : (0 : ℚ) < 60)] at this
            norm_num at this
            exact_mod_cast this
          have hq : ((a, tot) : Nat × Nat).1 ≤ 1 := ha1
          have hsq : 90 ≤ suffQual (hist ++ [(a, tot)]) := by
            rw [suffQual_append_qual hist (a, tot) hq]
            omega
          constructor
          · intro _
            obtain ⟨l1, w, heq, hwlen, hwq⟩ := suffQual_window (hist ++ [(a, tot)])
            exact ⟨l1, w, [], by rw [heq]; simp, by omega, hwq⟩
          · intro _ hl2
            refine ⟨m + 1, ?_, ?_⟩
            · rw [hm]
              push_cast
              ring
            · rw [suffQual_append_qual hist (a, tot) hq]
              omega
        · rw [if_neg hcond]
          constructor
          · intro h
            exact window_extend (hsched h)
          · intro _ hl2
            have hl : st.lastAliveCount ≤ 1 := hl2
            obtain ⟨m, hm, hms⟩ := hdur hrun2 hl
            have hq : ((a, tot) : Nat × Nat).1 ≤ 1 := by
              simp only
              omega
            refine ⟨m + 1, ?_, ?_⟩
            · rw [hm]
              push_cast
              ring
            · rw [suffQual_append_qual hist (a, tot) hq]
              omega

theorem endInv_run :
    ∀ ticks : List (Nat × Nat), (∀ t ∈ ticks, t.1 ≤ t.2) →
      EndInv (runEnd initEndState ticks) ticks := by
  intro ticks
  induction ticks using List.reverseRecOn with
  | nil =>
    intro _
    constructor
    · intro h; exact absurd h (by simp [runEnd, initEndState])
    · intro _ _
      exact ⟨0, by simp [runEnd, initEndState], by omega⟩
  | append_singleton l t ih =>
    intro hle
    have hrun : runEnd initEndState (l ++ [t]) =
        checkGameEnd (runEnd initEndState l) t.1 t.2 := by
      unfold runEnd
      rw [List.foldl_append]
      rfl
    rw [hrun]
    exact endInv_step (runEnd initEndState l) l t.1 t.2
      (hle t (by simp)) (ih (fun u hu => hle u (by simp [hu])))

/-- C8: end-game debounce. With alive counts never exceeding the player
total, the match end is scheduled only if some 90 consecutive ticks (1.5 s
of 1/60 s frames) all had at most one player alive; consequently a tick
sequence in which every such qualifying stretch is shorter than 90 ticks -
an alive count dipping to 1 but returning to 2 or more before the dwell
threshold - never schedules the end of the match. -/
theorem checkGameEnd_debounce :
    (∀ ticks : List (Nat × Nat), (∀ t ∈ ticks, t.1 ≤ t.2) →
        (runEnd initEndState ticks).gameEndScheduled = true →
        ∃ l1 w l2, ticks = l1 ++ w ++ l2 ∧ 90 ≤ w.length ∧ ∀ t ∈ w, t.1 ≤ 1) ∧
    (∀ ticks : List (Nat × Nat), (∀ t ∈ ticks, t.1 ≤ t.2) →
        (∀ l1 w l2, ticks = l1 ++ w ++ l2 → (∀ t ∈ w, t.1 ≤ 1) → w.length < 90) →
        (runEnd initEndState ticks).gameEndScheduled = false) := by
  constructor
  · intro ticks hle hs
    exact (endInv_run ticks hle).1 hs
  · intro ticks hle hflick
    cases hs : (runEnd initEndState ticks).gameEndScheduled
    · rfl
    · obtain ⟨l1, w, l2, heq, hwlen, hwq⟩ := (endInv_run ticks hle).1 hs
      exact absurd (hflick l1 w l2 heq hwq) (by omega)

/-- Witness for C8: a dip to one alive player for a single tick does not
schedule the end of the match. -/
theorem checkGameEnd_debounce_witness :
    (runEnd initEndState [(2, 2), (1, 2), (2, 2)]).gameEndScheduled = false :=
  checkGameEnd_debounce.2 [(2, 2), (1, 2), (2, 2)] (by decide)
    (by
      intro l1 w l2 heq _
      have hlen := congrArg List.length heq
      simp [List.length_append] at hlen
      omega)
